import Mathlib

/-!
# UCX binary instrumentation for RV64 (`src/ucm/bistro/bistro_rv64.c`)

A shallow embedding of the RV64 patch encoder of `ucm_bistro_patch`, of the lock
word of `ucm_bistro_patch_lock`, of the part of the RV64 instruction set the
six payload words and the lock word use, and of the bit-scan helpers of
`src/ucs/arch/rv64/bitops.h`.

Machine integers are natural numbers; a C `uint32_t` value is reduced `% 2 ^ 32`,
a 64-bit register value `% 2 ^ 64`.
-/

namespace Bistro

/-! ## Register numbers and instruction-word builders (lines 28-95 of the source) -/

/-- Register number of the highest temporary, `#define X31 31`. -/
def X31 : Nat := 31

/-- Register number `#define X30 30`. -/
def X30 : Nat := 30

/-- Register number of the hard-wired zero register, `#define X0 0`. -/
def X0 : Nat := 0

/-- The `JALR(_regs, _regd, _imm)` builder; the result is a 32-bit C value. -/
def JALR (regs regd imm : Nat) : Nat :=
  ((imm <<< 20) ||| (regs <<< 15) ||| (0b000 <<< 12) ||| (regd <<< 7) ||| 0x67) % 2 ^ 32

/-- The `C_J(_imm)` builder: `(0b101) << 13 | ((_imm >> 1) << 2) | (0b01)`. -/
def C_J (imm : Nat) : Nat :=
  ((0b101 <<< 13) ||| ((imm >>> 1) <<< 2) ||| 0b01) % 2 ^ 32

/-- The `ADDI(_regs, _regd, _imm)` builder. -/
def ADDI (regs regd imm : Nat) : Nat :=
  ((imm <<< 20) ||| (regs <<< 15) ||| (0b000 <<< 12) ||| (regd <<< 7) ||| 0x13) % 2 ^ 32

/-- The `ADD(_regs_a, _regs_b, _regd)` builder: the third argument lands in bits 11:7. -/
def ADD (regs_a regs_b regd : Nat) : Nat :=
  ((regs_b <<< 20) ||| (regs_a <<< 15) ||| (0b000 <<< 12) ||| (regd <<< 7) ||| 0x33) % 2 ^ 32

/-- The `LUI(_regd, _imm)` builder. -/
def LUI (regd imm : Nat) : Nat :=
  ((imm <<< 12) ||| (regd <<< 7) ||| 0x37) % 2 ^ 32

/-- The `SLLI(_regs, _regd, _imm)` builder. -/
def SLLI (regs regd imm : Nat) : Nat :=
  ((imm <<< 20) ||| (regs <<< 15) ||| (0b001 <<< 12) ||| (regd <<< 7) ||| 0x13) % 2 ^ 32

/-! ## The patch payload (lines 110-128 of the source) -/

/-- Modelled from the spec: the type `ucm_bistro_patch_t` is declared in a header that
is not among the sources; the spec gives it as six words of four bytes each, and the
compound literal in `ucm_bistro_patch` names the six fields. -/
structure ucm_bistro_patch_t where
  rega : Nat
  regb : Nat
  regc : Nat
  regd : Nat
  rege : Nat
  regf : Nat
  deriving DecidableEq

/-- The payload words in memory order. -/
def ucm_bistro_patch_t.words (p : ucm_bistro_patch_t) : List Nat :=
  [p.rega, p.regb, p.regc, p.regd, p.rege, p.regf]

/-- Modelled from the spec: `sizeof(ucm_bistro_patch_t)`, six words of four bytes. -/
def sizeof_patch : Nat := 6 * 4

/-- The local `hookp_upper` of `ucm_bistro_patch`:
`(uint32_t)(hookp >> 32) + ((uint32_t)(hookp >> 31) & 1)` in `uint32_t` arithmetic. -/
def hookp_upper (hookp : Nat) : Nat :=
  (((hookp >>> 32) % 2 ^ 32) + (((hookp >>> 31) % 2 ^ 32) &&& 1)) % 2 ^ 32

/-- The local `hookp_lower` of `ucm_bistro_patch`: `(uint32_t) hookp`. -/
def hookp_lower (hookp : Nat) : Nat :=
  hookp % 2 ^ 32

/-- The upper-immediate expression used for both `LUI` words:
`((h >> 12) + ((h >> 11) & 1)) & 0xFFFFF` on a `uint32_t` value `h`. -/
def lui_imm (h : Nat) : Nat :=
  (((h >>> 12) + ((h >>> 11) &&& 1)) % 2 ^ 32) &&& 0xFFFFF

/-- The compound literal assigned to `patch` in `ucm_bistro_patch`, for the hook
address `hookp = (uintptr_t)hook`. -/
def patch_payload (hookp : Nat) : ucm_bistro_patch_t :=
  { rega := LUI X31 (lui_imm (hookp_upper hookp))
    regb := ADDI X31 X31 (hookp_upper hookp &&& 0xFFF)
    regc := SLLI X31 X31 32
    regd := LUI X30 (lui_imm (hookp_lower hookp))
    rege := ADD X31 X31 X30
    regf := JALR X31 X0 (hookp_lower hookp &&& 0xFFF) }

/-! ## The RV64 instructions the payload uses

The decoder and the semantics follow the RISC-V unprivileged instruction set
manual (RV64I base, and the C extension for `c.j`). -/

/-- The instructions of RV64I that the payload is made of. -/
inductive Instr where
  | lui (rd imm20 : Nat)
  | addi (rd rs1 imm12 : Nat)
  | slli (rd rs1 shamt : Nat)
  | add (rd rs1 rs2 : Nat)
  | jalr (rd rs1 imm12 : Nat)
  deriving DecidableEq

/-- Bits 6:0 of an instruction word. -/
def opcode (w : Nat) : Nat := w % 128

/-- Bits 11:7 of an instruction word. -/
def rdField (w : Nat) : Nat := w / 2 ^ 7 % 32

/-- Bits 14:12 of an instruction word. -/
def funct3 (w : Nat) : Nat := w / 2 ^ 12 % 8

/-- Bits 19:15 of an instruction word. -/
def rs1Field (w : Nat) : Nat := w / 2 ^ 15 % 32

/-- Bits 24:20 of an instruction word. -/
def rs2Field (w : Nat) : Nat := w / 2 ^ 20 % 32

/-- Bits 31:25 of an instruction word. -/
def funct7 (w : Nat) : Nat := w / 2 ^ 25 % 128

/-- Bits 31:20 of an instruction word: the I-type immediate. -/
def immI (w : Nat) : Nat := w / 2 ^ 20 % 2 ^ 12

/-- Bits 31:12 of an instruction word: the U-type immediate. -/
def immU (w : Nat) : Nat := w / 2 ^ 12 % 2 ^ 20

/-- Decoder for 32-bit instruction words, restricted to the five instructions above.
On RV64 `SLLI` has a six-bit shift amount in bits 25:20 and zeros in bits 31:26. -/
def decode (w : Nat) : Option Instr :=
  if 2 ^ 32 ≤ w then none
  else if opcode w = 0x37 then some (.lui (rdField w) (immU w))
  else if opcode w = 0x13 ∧ funct3 w = 0 then some (.addi (rdField w) (rs1Field w) (immI w))
  else if opcode w = 0x13 ∧ funct3 w = 1 ∧ w / 2 ^ 26 % 64 = 0 then
    some (.slli (rdField w) (rs1Field w) (w / 2 ^ 20 % 64))
  else if opcode w = 0x33 ∧ funct3 w = 0 ∧ funct7 w = 0 then
    some (.add (rdField w) (rs1Field w) (rs2Field w))
  else if opcode w = 0x67 ∧ funct3 w = 0 then some (.jalr (rdField w) (rs1Field w) (immI w))
  else none

/-- The architectural state that matters here: program counter, the integer
register file (index to 64-bit value) and byte-addressed memory. -/
structure Machine where
  pc : Nat
  x : Nat → Nat
  mem : Nat → Nat

/-- Reading a register; `x0` reads as zero. -/
def Machine.readReg (m : Machine) (r : Nat) : Nat :=
  if r = 0 then 0 else m.x r

/-- Writing a register; a write to `x0` is discarded. -/
def Machine.writeReg (m : Machine) (rd v : Nat) : Machine :=
  if rd = 0 then m else { m with x := fun r => if r = rd then v else m.x r }

/-- Sign extension of a 12-bit immediate to a 64-bit two-complement value. -/
def sext12 (v : Nat) : Nat :=
  if v % 2 ^ 12 < 2 ^ 11 then v % 2 ^ 12 else v % 2 ^ 12 + (2 ^ 64 - 2 ^ 12)

/-- Sign extension of a 32-bit value to a 64-bit two-complement value. -/
def sext32 (v : Nat) : Nat :=
  if v % 2 ^ 32 < 2 ^ 31 then v % 2 ^ 32 else v % 2 ^ 32 + (2 ^ 64 - 2 ^ 32)

/-- Execution of one decoded instruction on RV64. -/
def exec (i : Instr) (m : Machine) : Machine :=
  match i with
  | .lui rd imm20 =>
    { m.writeReg rd (sext32 (imm20 * 2 ^ 12)) with pc := (m.pc + 4) % 2 ^ 64 }
  | .addi rd rs1 imm12 =>
    { m.writeReg rd ((m.readReg rs1 + sext12 imm12) % 2 ^ 64) with pc := (m.pc + 4) % 2 ^ 64 }
  | .slli rd rs1 shamt =>
    { m.writeReg rd ((m.readReg rs1 * 2 ^ shamt) % 2 ^ 64) with pc := (m.pc + 4) % 2 ^ 64 }
  | .add rd rs1 rs2 =>
    { m.writeReg rd ((m.readReg rs1 + m.readReg rs2) % 2 ^ 64) with pc := (m.pc + 4) % 2 ^ 64 }
  | .jalr rd rs1 imm12 =>
    let t := (m.readReg rs1 + sext12 imm12) % 2 ^ 64
    { m.writeReg rd ((m.pc + 4) % 2 ^ 64) with pc := t - t % 2 }

/-- Executing a sequence of instruction words in order; fails on a word that does
not decode. -/
def execWords : List Nat → Machine → Option Machine
  | [], m => some m
  | w :: ws, m =>
    match decode w with
    | none => none
    | some i => execWords ws (exec i m)

/-- A machine with every register and byte zero, at the given program counter. -/
def Machine.zero (pc : Nat) : Machine :=
  { pc := pc, x := fun _ => 0, mem := fun _ => 0 }

/-! ## Instruction fetch and the compressed jump of the lock word -/

/-- The compressed instructions needed here: `c.j` with its decoded byte offset. -/
inductive CInstr where
  | c_j (offset : Nat)
  deriving DecidableEq

/-- The 12-bit offset of a CJ-format parcel: bits 12:2 hold
`imm[11|4|9:8|10|6|7|3:1|5]`, and `imm[0]` is zero. -/
def cjOffset (h : Nat) : Nat :=
  (h / 2 ^ 12 % 2) * 2 ^ 11 + (h / 2 ^ 11 % 2) * 2 ^ 4 + (h / 2 ^ 9 % 4) * 2 ^ 8 +
    (h / 2 ^ 8 % 2) * 2 ^ 10 + (h / 2 ^ 7 % 2) * 2 ^ 6 + (h / 2 ^ 6 % 2) * 2 ^ 7 +
    (h / 2 ^ 3 % 8) * 2 ^ 1 + (h / 2 ^ 2 % 2) * 2 ^ 5

/-- Decoder for 16-bit parcels, restricted to `c.j` (quadrant 01, funct3 101). -/
def decodeC (h : Nat) : Option CInstr :=
  if h < 2 ^ 16 ∧ h % 4 = 1 ∧ h / 2 ^ 13 % 8 = 5 then some (.c_j (cjOffset h)) else none

/-- Execution of one compressed instruction: `c.j` adds its sign-extended offset to
the program counter and writes no register. -/
def execC (i : CInstr) (m : Machine) : Machine :=
  match i with
  | .c_j offset => { m with pc := (m.pc + sext12 offset) % 2 ^ 64 }

/-- The little-endian 16-bit parcel at byte address `a`. -/
def fetch16 (m : Machine) (a : Nat) : Nat :=
  m.mem a % 256 + 256 * (m.mem ((a + 1) % 2 ^ 64) % 256)

/-- One execution step: fetch the parcel at the program counter; a parcel whose two
low bits are `11` starts a 32-bit instruction, any other is a compressed one. -/
def step (m : Machine) : Option Machine :=
  let lo := fetch16 m m.pc
  if lo % 4 = 3 then
    match decode (lo + 2 ^ 16 * fetch16 m ((m.pc + 2) % 2 ^ 64)) with
    | none => none
    | some i => some (exec i m)
  else
    match decodeC lo with
    | none => none
    | some i => some (execC i m)

/-- Running `n` steps. -/
def run : Nat → Machine → Option Machine
  | 0, m => some m
  | n + 1, m =>
    match step m with
    | none => none
    | some m1 => run n m1

/-! ## `ucm_bistro_patch_lock` and `ucm_bistro_patch` (lines 97-140 of the source)

The functions of the shared bistro layer and the status codes are declared in
headers that are not among the sources; they are parameters of the model. The
state `σ` is everything those functions can read or write (the code bytes of the
site, the restore point, `*rp`). -/

/-- The static constant `self_jmp` of `ucm_bistro_patch_lock`: its field `j`. -/
def self_jmp : Nat := C_J 0

/-- The function `ucm_bistro_patch_lock`: one call of `ucm_bistro_modify_code` with the
destination and the lock word. -/
def ucm_bistro_patch_lock {σ : Type} (ucm_bistro_modify_code : Nat → Nat → σ → σ)
    (dst : Nat) (s : σ) : σ :=
  ucm_bistro_modify_code dst self_jmp s

/-- What `ucm_bistro_patch` takes from the rest of the library. -/
structure BistroEnv (σ : Type) where
  UCS_ERR_UNSUPPORTED : Int
  UCS_STATUS_IS_ERR : Int → Bool
  ucm_bistro_create_restore_point : Nat → Nat → Option Nat → σ → Int × σ
  ucm_bistro_apply_patch_atomic : Nat → ucm_bistro_patch_t → Nat → σ → Int × σ

/-- A call made by `ucm_bistro_patch` to the shared layer, with its arguments. -/
inductive BistroCall where
  | create_restore_point (addr len : Nat) (rp : Option Nat)
  | apply_patch_atomic (dst : Nat) (patch : ucm_bistro_patch_t) (len : Nat)
  deriving DecidableEq

/-- Outcome of `ucm_bistro_patch`: the returned status, the state left behind and
the calls made, in order. -/
structure PatchResult (σ : Type) where
  status : Int
  state : σ
  calls : List BistroCall

/-- The function `ucm_bistro_patch`. Pointers are addresses, `none` is `NULL`. -/
def ucm_bistro_patch {σ : Type} (env : BistroEnv σ) (func_ptr hook : Nat) (symbol : String)
    (orig_func_p : Option Nat) (rp : Option Nat) (s : σ) : PatchResult σ :=
  let hookp := hook % 2 ^ 64
  let patch := patch_payload hookp
  if orig_func_p ≠ none then
    { status := env.UCS_ERR_UNSUPPORTED, state := s, calls := [] }
  else
    let r := env.ucm_bistro_create_restore_point func_ptr sizeof_patch rp s
    if env.UCS_STATUS_IS_ERR r.1 = true then
      { status := r.1, state := r.2, calls := [.create_restore_point func_ptr sizeof_patch rp] }
    else
      let r2 := env.ucm_bistro_apply_patch_atomic func_ptr patch sizeof_patch r.2
      { status := r2.1, state := r2.2,
        calls := [.create_restore_point func_ptr sizeof_patch rp,
                  .apply_patch_atomic func_ptr patch sizeof_patch] }

/-- A sample environment whose state is the list of words at the site: the status
codes are those of the library (`UCS_ERR_UNSUPPORTED = -22`, the errors are the
negative codes), restore-point creation fails with `-4` at the null address and
succeeds elsewhere, and applying a patch stores its words. -/
def sampleEnv : BistroEnv (List Nat) :=
  { UCS_ERR_UNSUPPORTED := -22
    UCS_STATUS_IS_ERR := fun st => decide (st < 0)
    ucm_bistro_create_restore_point := fun addr _ _ s => if addr = 0 then (-4, s) else (0, s)
    ucm_bistro_apply_patch_atomic := fun _ patch _ _ => (0, patch.words) }

/-- A machine whose program counter points at the lock word `0xA001` in memory. -/
def lockedMachine : Machine :=
  { pc := 0x1000
    x := fun _ => 7
    mem := fun a => if a = 0x1000 then 0x01 else if a = 0x1001 then 0xA0 else 0 }

/-! ## The bit-scan helpers of `src/ucs/arch/rv64/bitops.h` -/

/-- Counting the zero bits below the lowest set bit, looking at no more than `fuel`
bit positions. -/
def ctzLoop : Nat → Nat → Nat
  | 0, _ => 0
  | fuel + 1, x => if x % 2 = 1 then 0 else 1 + ctzLoop fuel (x / 2)

/-- The compiler builtin `__builtin_ctz` on an `unsigned int`: the number of trailing
zero bits of a nonzero argument; its result at zero is undefined, here `none`. -/
def __builtin_ctz (x : Nat) : Option Nat :=
  if x % 2 ^ 32 = 0 then none else some (ctzLoop 32 (x % 2 ^ 32))

/-- The macro `ctz_safe(n)`: `((n) ? __builtin_ctz(n) : 32)`. -/
def ctz_safe (n : Nat) : Option Nat :=
  if n ≠ 0 then __builtin_ctz n else some 32

/-- The function `__ucs_ilog2_u32(uint32_t n)`. -/
def __ucs_ilog2_u32 (n : Nat) : Option Nat :=
  ctz_safe (n % 2 ^ 32)

/-- The function `__ucs_ilog2_u64(uint64_t n)`. The union overlays the 64-bit value
with two 32-bit members; on little-endian RV64 `rhs` is the low word and `lhs` the
high word. -/
def __ucs_ilog2_u64 (n : Nat) : Option Nat :=
  let value := n % 2 ^ 64
  let pvalue_rhs := value % 2 ^ 32
  let pvalue_lhs := value / 2 ^ 32
  match ctz_safe pvalue_lhs, ctz_safe pvalue_rhs with
  | some lhs, some rhs =>
    let val := rhs
    if rhs = 32 then some (32 + lhs) else some val
  | _, _ => none

/-- The function `ucs_ffs32(uint32_t n)`. -/
def ucs_ffs32 (n : Nat) : Option Nat :=
  __ucs_ilog2_u32 n

/-- The function `ucs_ffs64(uint64_t n)`. -/
def ucs_ffs64 (n : Nat) : Option Nat :=
  __ucs_ilog2_u64 n

/-! ## Arithmetic form of the instruction words -/

theorem or_eq_add_of_lt (a b k : Nat) (hb : b < 2 ^ k) : (a <<< k) ||| b = a * 2 ^ k + b := by
  rw [Nat.shiftLeft_eq, Nat.mul_comm a, ← Nat.mul_add_lt_is_or hb]

theorem and_0xFFF (x : Nat) : x &&& 0xFFF = x % 4096 :=
  Nat.and_pow_two_sub_one_eq_mod x 12

theorem and_0xFFFFF (x : Nat) : x &&& 0xFFFFF = x % 1048576 :=
  Nat.and_pow_two_sub_one_eq_mod x 20

theorem LUI_eq (rd i : Nat) (hrd : rd < 32) (hi : i < 2 ^ 20) :
    LUI rd i = i * 4096 + rd * 128 + 55 := by
  unfold LUI
  rw [Nat.lor_assoc, or_eq_add_of_lt rd 0x37 7 (by norm_num), or_eq_add_of_lt i _ 12 (by omega)]
  omega

theorem itype_eq (imm rs rd f3 op : Nat) (hrs : rs < 32) (hrd : rd < 32) (hf : f3 < 8)
    (hop : op < 128) (hi : imm < 2 ^ 12) :
    ((imm <<< 20) ||| (rs <<< 15) ||| (f3 <<< 12) ||| (rd <<< 7) ||| op) % 2 ^ 32
      = imm * 1048576 + rs * 32768 + f3 * 4096 + rd * 128 + op := by
  rw [Nat.lor_assoc, Nat.lor_assoc, Nat.lor_assoc, or_eq_add_of_lt rd op 7 hop,
    or_eq_add_of_lt f3 _ 12 (by omega), or_eq_add_of_lt rs _ 15 (by omega),
    or_eq_add_of_lt imm _ 20 (by omega)]
  omega

theorem lui_imm_eq (h : Nat) :
    lui_imm h = (h / 4096 + h / 2048 % 2) % 1048576 := by
  unfold lui_imm
  rw [and_0xFFFFF, Nat.and_one_is_mod, Nat.shiftRight_eq_div_pow, Nat.shiftRight_eq_div_pow]
  omega

theorem lui_imm_lt (h : Nat) : lui_imm h < 2 ^ 20 := by
  rw [lui_imm_eq]; omega

theorem hookp_upper_eq (a : Nat) :
    hookp_upper a = (a / 4294967296 % 4294967296 + a / 2147483648 % 2) % 4294967296 := by
  unfold hookp_upper
  rw [Nat.and_one_is_mod, Nat.shiftRight_eq_div_pow, Nat.shiftRight_eq_div_pow]
  omega

theorem low12_lt (h : Nat) : h &&& 0xFFF < 2 ^ 12 := by
  rw [and_0xFFF]; omega

/-! ## Decoding the words the builders produce -/

theorem decode_LUI (rd i : Nat) (hrd : rd < 32) (hi : i < 2 ^ 20) :
    decode (LUI rd i) = some (.lui rd i) := by
  rw [LUI_eq rd i hrd hi]
  unfold decode opcode rdField immU
  have h1 : ¬ 2 ^ 32 ≤ i * 4096 + rd * 128 + 55 := by omega
  have h2 : (i * 4096 + rd * 128 + 55) % 128 = 0x37 := by omega
  have h3 : (i * 4096 + rd * 128 + 55) / 2 ^ 7 % 32 = rd := by omega
  have h4 : (i * 4096 + rd * 128 + 55) / 2 ^ 12 % 2 ^ 20 = i := by omega
  rw [if_neg h1, if_pos h2, h3, h4]

theorem decode_ADDI (rs rd i : Nat) (hrs : rs < 32) (hrd : rd < 32) (hi : i < 2 ^ 12) :
    decode (ADDI rs rd i) = some (.addi rd rs i) := by
  unfold ADDI
  rw [itype_eq i rs rd 0 0x13 hrs hrd (by norm_num) (by norm_num) hi]
  unfold decode opcode rdField funct3 rs1Field immI
  generalize hw : i * 1048576 + rs * 32768 + 0 * 4096 + rd * 128 + 0x13 = w
  have h1 : ¬ 2 ^ 32 ≤ w := by omega
  have h2 : ¬ w % 128 = 0x37 := by omega
  have h3 : w % 128 = 0x13 ∧ w / 2 ^ 12 % 8 = 0 := by omega
  have h4 : w / 2 ^ 7 % 32 = rd := by omega
  have h5 : w / 2 ^ 15 % 32 = rs := by omega
  have h6 : w / 2 ^ 20 % 2 ^ 12 = i := by omega
  rw [if_neg h1, if_neg h2, if_pos h3, h4, h5, h6]

theorem decode_JALR (rs rd i : Nat) (hrs : rs < 32) (hrd : rd < 32) (hi : i < 2 ^ 12) :
    decode (JALR rs rd i) = some (.jalr rd rs i) := by
  unfold JALR
  rw [itype_eq i rs rd 0 0x67 hrs hrd (by norm_num) (by norm_num) hi]
  unfold decode opcode rdField funct3 rs1Field immI funct7
  generalize hw : i * 1048576 + rs * 32768 + 0 * 4096 + rd * 128 + 0x67 = w
  have h1 : ¬ 2 ^ 32 ≤ w := by omega
  have h2 : ¬ w % 128 = 0x37 := by omega
  have h3 : ¬ (w % 128 = 0x13 ∧ w / 2 ^ 12 % 8 = 0) := by omega
  have h4 : ¬ (w % 128 = 0x13 ∧ w / 2 ^ 12 % 8 = 1 ∧ w / 2 ^ 26 % 64 = 0) := by omega
  have h5 : ¬ (w % 128 = 0x33 ∧ w / 2 ^ 12 % 8 = 0 ∧ w / 2 ^ 25 % 128 = 0) := by omega
  have h6 : w % 128 = 0x67 ∧ w / 2 ^ 12 % 8 = 0 := by omega
  have h7 : w / 2 ^ 7 % 32 = rd := by omega
  have h8 : w / 2 ^ 15 % 32 = rs := by omega
  have h9 : w / 2 ^ 20 % 2 ^ 12 = i := by omega
  rw [if_neg h1, if_neg h2, if_neg h3, if_neg h4, if_neg h5, if_pos h6, h7, h8, h9]

theorem decode_rega (a : Nat) :
    decode (patch_payload a).rega = some (.lui 31 (lui_imm (hookp_upper a))) :=
  decode_LUI 31 _ (by norm_num) (lui_imm_lt _)

theorem decode_regb (a : Nat) :
    decode (patch_payload a).regb = some (.addi 31 31 (hookp_upper a &&& 0xFFF)) :=
  decode_ADDI 31 31 _ (by norm_num) (by norm_num) (low12_lt _)

theorem decode_regc (a : Nat) : decode (patch_payload a).regc = some (.slli 31 31 32) := by
  show decode (SLLI X31 X31 32) = _
  decide

theorem decode_regd (a : Nat) :
    decode (patch_payload a).regd = some (.lui 30 (lui_imm (hookp_lower a))) :=
  decode_LUI 30 _ (by norm_num) (lui_imm_lt _)

theorem decode_rege (a : Nat) : decode (patch_payload a).rege = some (.add 30 31 31) := by
  show decode (ADD X31 X31 X30) = _
  decide

theorem decode_regf (a : Nat) :
    decode (patch_payload a).regf = some (.jalr 0 31 (hookp_lower a &&& 0xFFF)) :=
  decode_JALR 31 0 _ (by norm_num) (by norm_num) (low12_lt _)

theorem execWords_cons (w : Nat) (ws : List Nat) (m : Machine) (i : Instr)
    (h : decode w = some i) : execWords (w :: ws) m = execWords ws (exec i m) := by
  rw [execWords, h]

/-- Running the six payload words never gets stuck: each word decodes, and the final
state is the composition of the six instruction effects. -/
theorem execWords_payload (a : Nat) (m : Machine) :
    execWords (patch_payload a).words m =
      some (exec (.jalr 0 31 (hookp_lower a &&& 0xFFF))
        (exec (.add 30 31 31)
          (exec (.lui 30 (lui_imm (hookp_lower a)))
            (exec (.slli 31 31 32)
              (exec (.addi 31 31 (hookp_upper a &&& 0xFFF))
                (exec (.lui 31 (lui_imm (hookp_upper a))) m)))))) := by
  unfold ucm_bistro_patch_t.words
  rw [execWords_cons _ _ _ _ (decode_rega a), execWords_cons _ _ _ _ (decode_regb a),
    execWords_cons _ _ _ _ (decode_regc a), execWords_cons _ _ _ _ (decode_regd a),
    execWords_cons _ _ _ _ (decode_rege a), execWords_cons _ _ _ _ (decode_regf a)]
  rfl

/-- The value the upper build leaves in `x31`: the `uint32_t` value `hookp_upper`
shifted into the high half. -/
theorem upper_build (u : Nat) (hu : u < 2 ^ 32) :
    ((sext32 (lui_imm u * 2 ^ 12) + sext12 (u &&& 0xFFF)) % 2 ^ 64 * 2 ^ 32) % 2 ^ 64
      = u * 2 ^ 32 := by
  rw [lui_imm_eq, and_0xFFF]
  unfold sext32 sext12
  split <;> split <;> omega

/-- Where the payload transfers control, for every hook address and initial state. -/
theorem payload_transfer (a : Nat) (m : Machine) :
    ∃ m', execWords (patch_payload a).words m = some m' ∧
      m'.pc = (hookp_upper a * 2 ^ 32 + sext12 (hookp_lower a &&& 0xFFF)) % 2 ^ 64
        - (hookp_upper a * 2 ^ 32 + sext12 (hookp_lower a &&& 0xFFF)) % 2 ^ 64 % 2 := by
  refine ⟨_, execWords_payload a m, ?_⟩
  have hu : hookp_upper a < 2 ^ 32 := by rw [hookp_upper_eq]; omega
  have h := upper_build (hookp_upper a) hu
  simp [exec, Machine.writeReg, Machine.readReg] at h ⊢
  omega

/-- The biased upper immediate of `u + c`, for a carry `c` of 0 or 1 into a 32-bit
`u` whose bit 11 is set, is that of `u` alone. -/
theorem bias_carry (u c : Nat) (hu : u < 2 ^ 32) (hc : c < 2) (hb : u / 2048 % 2 = 1) :
    ((u + c) % 2 ^ 32 / 4096 + (u + c) % 2 ^ 32 / 2048 % 2) % 1048576
      = (u / 2 ^ 12 + 1) % 2 ^ 20 := by
  by_cases h1 : u % 4096 = 4095
  · by_cases h2 : u = 2 ^ 32 - 1
    · subst h2
      interval_cases c <;> decide
    · interval_cases c <;> omega
  · interval_cases c <;> omega

/-- A machine at the lock word makes no progress in one step. -/
theorem step_self_jmp (m : Machine) (hpc : m.pc < 2 ^ 64) (hf : fetch16 m m.pc = self_jmp) :
    step m = some m := by
  have hd : decodeC self_jmp = some (.c_j 0) := by decide
  have h4 : ¬ self_jmp % 4 = 3 := by decide
  unfold step
  simp only [hf, h4, if_false, hd, execC]
  have h0 : sext12 0 = 0 := by decide
  rw [h0, Nat.add_zero, Nat.mod_eq_of_lt hpc]

/-! ## Facts about the bit-scan helpers -/

/-- The loop finds the lowest set bit of a nonzero value that fits in `fuel` bits. -/
theorem ctzLoop_spec (fuel : Nat) : ∀ x : Nat, 0 < x → x < 2 ^ fuel →
    ctzLoop fuel x < fuel ∧ x.testBit (ctzLoop fuel x) = true ∧
      ∀ i, i < ctzLoop fuel x → x.testBit i = false := by
  induction fuel with
  | zero =>
    intro x h0 h1
    simp at h1
    omega
  | succ f ih =>
    intro x h0 h1
    unfold ctzLoop
    by_cases hodd : x % 2 = 1
    · rw [if_pos hodd]
      refine ⟨by omega, ?_, ?_⟩
      · rw [Nat.testBit_zero]; exact decide_eq_true hodd
      · intro i hi; omega
    · rw [if_neg hodd]
      have h2 : 0 < x / 2 := by omega
      have h3 : x / 2 < 2 ^ f := by
        rw [Nat.pow_succ] at h1; omega
      obtain ⟨r1, r2, r3⟩ := ih (x / 2) h2 h3
      refine ⟨by omega, ?_, ?_⟩
      · rw [Nat.add_comm, Nat.testBit_succ]; exact r2
      · intro i hi
        cases i with
        | zero => rw [Nat.testBit_zero]; exact decide_eq_false hodd
        | succ j => rw [Nat.testBit_succ]; exact r3 j (by omega)

/-- The 32-bit scan returns the lowest set bit of a nonzero 32-bit value. -/
theorem ffs32_spec (n : Nat) (hn : n ≠ 0) (h32 : n < 2 ^ 32) :
    ∃ r, ucs_ffs32 n = some r ∧ r < 32 ∧ n.testBit r = true ∧
      ∀ i, i < r → n.testBit i = false := by
  have hm : n % 2 ^ 32 = n := Nat.mod_eq_of_lt h32
  refine ⟨ctzLoop 32 n, ?_, ctzLoop_spec 32 n (by omega) h32⟩
  unfold ucs_ffs32 __ucs_ilog2_u32 ctz_safe __builtin_ctz
  rw [hm, if_pos hn, hm, if_neg hn]

/-- The 64-bit scan returns the lowest set bit of a nonzero 64-bit value. -/
theorem ffs64_spec (n : Nat) (hn : n ≠ 0) (h64 : n < 2 ^ 64) :
    ∃ r, ucs_ffs64 n = some r ∧ r < 64 ∧ n.testBit r = true ∧
      ∀ i, i < r → n.testBit i = false := by
  have hm : n % 2 ^ 64 = n := Nat.mod_eq_of_lt h64
  have hhi : n / 2 ^ 32 < 2 ^ 32 := by omega
  have hlo : n % 2 ^ 32 < 2 ^ 32 := by omega
  have hhm : n / 2 ^ 32 % 2 ^ 32 = n / 2 ^ 32 := Nat.mod_eq_of_lt hhi
  have hlm : n % 2 ^ 32 % 2 ^ 32 = n % 2 ^ 32 := Nat.mod_eq_of_lt hlo
  by_cases hl : n % 2 ^ 32 = 0
  · have hh : n / 2 ^ 32 ≠ 0 := by omega
    obtain ⟨r1, r2, r3⟩ := ctzLoop_spec 32 (n / 2 ^ 32) (by omega) hhi
    refine ⟨32 + ctzLoop 32 (n / 2 ^ 32), ?_, by omega, ?_, ?_⟩
    · unfold ucs_ffs64 __ucs_ilog2_u64 ctz_safe __builtin_ctz
      simp only [hm, hhm, hlm, hl, if_pos hh, if_neg hh, ne_eq, not_true_eq_false, if_false,
        if_true]
    · rw [← Nat.testBit_shiftRight, Nat.shiftRight_eq_div_pow]; exact r2
    · intro i hi
      by_cases hi32 : i < 32
      · have := Nat.testBit_mod_two_pow n 32 i
        rw [hl, Nat.zero_testBit] at this
        simpa [hi32] using this.symm
      · obtain ⟨j, rfl⟩ : ∃ j, i = 32 + j := ⟨i - 32, by omega⟩
        rw [← Nat.testBit_shiftRight, Nat.shiftRight_eq_div_pow]
        exact r3 j (by omega)
  · obtain ⟨r1, r2, r3⟩ := ctzLoop_spec 32 (n % 2 ^ 32) (by omega) hlo
    have hne : ctzLoop 32 (n % 2 ^ 32) ≠ 32 := by omega
    have low : ∀ i, i < 32 → (n % 2 ^ 32).testBit i = n.testBit i := by
      intro i hi
      rw [Nat.testBit_mod_two_pow]; simp [hi]
    refine ⟨ctzLoop 32 (n % 2 ^ 32), ?_, by omega, ?_, ?_⟩
    · unfold ucs_ffs64 __ucs_ilog2_u64 ctz_safe __builtin_ctz
      by_cases hh : n / 2 ^ 32 = 0
      · simp only [hm, hhm, hlm, hl, hh, hne, ne_eq, not_true_eq_false, not_false_eq_true,
          if_false, if_true]
      · simp only [hm, hhm, hlm, hl, hh, hne, ne_eq, not_true_eq_false, not_false_eq_true,
          if_false, if_true]
    · rw [← low _ r1]; exact r2
    · intro i hi
      rw [← low i (by omega)]; exact r3 i hi

theorem ffs32_mod (n : Nat) : ucs_ffs32 n = ucs_ffs32 (n % 2 ^ 32) := by
  unfold ucs_ffs32 __ucs_ilog2_u32
  rw [Nat.mod_mod]

theorem ffs64_mod (n : Nat) : ucs_ffs64 n = ucs_ffs64 (n % 2 ^ 64) := by
  unfold ucs_ffs64 __ucs_ilog2_u64
  simp only [Nat.mod_mod]

/-- The 32-bit scan never fails and never exceeds the word width. -/
theorem ffs32_total (n : Nat) : ∃ r, ucs_ffs32 n = some r ∧ r ≤ 32 := by
  rw [ffs32_mod]
  by_cases h : n % 2 ^ 32 = 0
  · rw [h]; exact ⟨32, by decide, by omega⟩
  · obtain ⟨r, h1, h2, _⟩ := ffs32_spec (n % 2 ^ 32) h (Nat.mod_lt _ (by norm_num))
    exact ⟨r, h1, by omega⟩

/-- The 64-bit scan never fails and never exceeds the word width. -/
theorem ffs64_total (n : Nat) : ∃ r, ucs_ffs64 n = some r ∧ r ≤ 64 := by
  rw [ffs64_mod]
  by_cases h : n % 2 ^ 64 = 0
  · rw [h]; exact ⟨64, by decide, by omega⟩
  · obtain ⟨r, h1, h2, _⟩ := ffs64_spec (n % 2 ^ 64) h (Nat.mod_lt _ (by norm_num))
    exact ⟨r, h1, by omega⟩

/-- The three parts the payload builds (upper half shifted, lower `LUI`, jump
immediate) sum to the hook address unless the lower half lies in
`0x7FFFF800 .. 0x7FFFFFFF`, where the sum is `2 ^ 32` short. -/
theorem compensation_sum (a : Nat) (ha : a < 2 ^ 64) :
    (hookp_upper a * 2 ^ 32 + sext32 (lui_imm (hookp_lower a) * 2 ^ 12)
        + sext12 (hookp_lower a &&& 0xFFF)) % 2 ^ 64
      = if 0x7FFFF800 ≤ a % 2 ^ 32 ∧ a % 2 ^ 32 < 0x80000000
        then (a + (2 ^ 64 - 2 ^ 32)) % 2 ^ 64 else a := by
  rw [lui_imm_eq, and_0xFFF, hookp_upper_eq]
  unfold hookp_lower sext32 sext12
  split <;> split <;> split <;> omega

/-- A 32-bit value is determined by its biased upper immediate and its low 12 bits. -/
theorem lui_imm_low12_inj (x y : Nat) (hx : x < 2 ^ 32) (hy : y < 2 ^ 32)
    (h1 : lui_imm x = lui_imm y) (h2 : x &&& 0xFFF = y &&& 0xFFF) : x = y := by
  rw [lui_imm_eq, lui_imm_eq] at h1
  rw [and_0xFFF, and_0xFFF] at h2
  have hb : x / 2048 % 2 = y / 2048 % 2 := by omega
  rcases Nat.mod_two_eq_zero_or_one (x / 2048) with h | h <;> omega

/-! ## The claims -/

/-- C1: the payload for the hook address `0x0000000123456788` does not transfer
control to the hook: from every initial state the six words run to completion and
the program counter ends at `0x100000788`, the lower half's upper-immediate build
in `x30` never reaching the jump. -/
theorem payload_misses_hook (m : Machine) :
    ∃ m', execWords (patch_payload 0x0000000123456788).words m = some m' ∧
      m'.pc = 0x100000788 ∧ m'.pc ≠ 0x0000000123456788 := by
  obtain ⟨m', h1, h2⟩ := payload_transfer 0x0000000123456788 m
  have h3 : (hookp_upper 0x0000000123456788 * 2 ^ 32 +
        sext12 (hookp_lower 0x0000000123456788 &&& 0xFFF)) % 2 ^ 64
      - (hookp_upper 0x0000000123456788 * 2 ^ 32 +
        sext12 (hookp_lower 0x0000000123456788 &&& 0xFFF)) % 2 ^ 64 % 2 = 0x100000788 := by
    decide
  rw [h3] at h2
  exact ⟨m', h1, h2, by rw [h2]; decide⟩

/-- C2: for every hook address, every initial state and every register other than
`x30` and `x31`, the six payload words run to completion and leave that register
(raw and as read) with its initial value; memory is untouched as well. -/
theorem payload_frame (a : Nat) (m : Machine) (r : Nat) (h30 : r ≠ 30) (h31 : r ≠ 31) :
    ∃ m', execWords (patch_payload a).words m = some m' ∧
      m'.x r = m.x r ∧ m'.readReg r = m.readReg r ∧ m'.mem = m.mem := by
  refine ⟨_, execWords_payload a m, ?_, ?_, ?_⟩ <;>
    simp [exec, Machine.writeReg, Machine.readReg, h30, h31]

/-- Witness for `payload_frame`: register `x5` keeps its value `105`. -/
theorem payload_frame_witness :
    (5 : Nat) ≠ 30 ∧ (5 : Nat) ≠ 31 ∧
      ∃ m', execWords (patch_payload 0x0000000123456788).words
          { pc := 0x1000, x := fun r => r + 100, mem := fun _ => 0 } = some m' ∧
        m'.x 5 = 105 :=
  ⟨by decide, by decide,
    (payload_frame 0x0000000123456788
      { pc := 0x1000, x := fun r => r + 100, mem := fun _ => 0 } 5 (by decide) (by decide)).imp
      fun _ h => ⟨h.1, h.2.1⟩⟩

/-- C3, as stated, fails: for the hook address `0x0000000123456789` the first five
payload words leave `x31` holding `0x100000000`, not `0x0000000123456789`. -/
theorem five_words_x31_counterexample :
    (execWords ((patch_payload 0x0000000123456789).words.take 5) (Machine.zero 0x1000)).map
        (fun m => m.readReg 31) = some 0x100000000 ∧
      (execWords ((patch_payload 0x0000000123456789).words.take 5) (Machine.zero 0x1000)).map
        (fun m => m.readReg 31) ≠ some 0x0000000123456789 := by
  decide

/-- C3, amended: for the hook address `0x0000000123456789`, from every initial state
the first four payload words (upper build, shift, lower build) run to completion and
leave `0x100000000` in `x31` and `0x23456000` in `x30`; the final jump word carries
the immediate `0x789`, and these three values sum to `0x0000000123456789`. -/
theorem four_words_build_parts (m : Machine) :
    ∃ m4, execWords ((patch_payload 0x0000000123456789).words.take 4) m = some m4 ∧
      m4.readReg 31 = 0x100000000 ∧ m4.readReg 30 = 0x23456000 ∧
      decode (patch_payload 0x0000000123456789).regf = some (.jalr 0 31 0x789) ∧
      (0x100000000 + 0x23456000 + sext12 0x789) % 2 ^ 64 = 0x0000000123456789 := by
  refine ⟨exec (.lui 30 0x23456) (exec (.slli 31 31 32) (exec (.addi 31 31 1)
    (exec (.lui 31 0) m))), ?_, ?_, ?_, ?_, ?_⟩
  · have ha : decode (patch_payload 0x0000000123456789).rega = some (.lui 31 0) := by decide
    have hb : decode (patch_payload 0x0000000123456789).regb = some (.addi 31 31 1) := by decide
    have hc : decode (patch_payload 0x0000000123456789).regc = some (.slli 31 31 32) := by
      decide
    have hd : decode (patch_payload 0x0000000123456789).regd = some (.lui 30 0x23456) := by
      decide
    show execWords [_, _, _, _] m = _
    rw [execWords_cons _ _ _ _ ha, execWords_cons _ _ _ _ hb, execWords_cons _ _ _ _ hc,
      execWords_cons _ _ _ _ hd]
    rfl
  · simp [exec, Machine.writeReg, Machine.readReg, sext32, sext12]
  · simp [exec, Machine.writeReg, Machine.readReg, sext32, sext12]
  · decide
  · decide

/-- C4, as stated, fails: for the hook address `0x00000000FFFFF800` bit 11 of the
lower half is set, yet the upper-immediate field of the fourth word is `0`, not
`(lower >> 12) + 1 = 0x100000`. -/
theorem lui_field_wraps_counterexample :
    (hookp_lower 0x00000000FFFFF800 >>> 11) &&& 1 = 1 ∧
      immU (patch_payload 0x00000000FFFFF800).regd = 0 ∧
      immU (patch_payload 0x00000000FFFFF800).regd
        ≠ (hookp_lower 0x00000000FFFFF800 >>> 12) + 1 := by
  decide

/-- C4, amended: for every 64-bit hook address, if bit 11 of its lower half is set
the upper-immediate field of the fourth word is `(lower >> 12) + 1` reduced modulo
`2 ^ 20`, and if bit 11 of its upper half is set the upper-immediate field of the
first word is `(upper >> 12) + 1` reduced modulo `2 ^ 20`. -/
theorem lui_field_bias (a : Nat) (ha : a < 2 ^ 64) :
    ((((a % 2 ^ 32) >>> 11) &&& 1 = 1) →
        immU (patch_payload a).regd = (((a % 2 ^ 32) >>> 12) + 1) % 2 ^ 20) ∧
      ((((a >>> 32) >>> 11) &&& 1 = 1) →
        immU (patch_payload a).rega = (((a >>> 32) >>> 12) + 1) % 2 ^ 20) := by
  have hd : (patch_payload a).regd = lui_imm (hookp_lower a) * 4096 + 30 * 128 + 55 :=
    LUI_eq 30 _ (by norm_num) (lui_imm_lt _)
  have hu : (patch_payload a).rega = lui_imm (hookp_upper a) * 4096 + 31 * 128 + 55 :=
    LUI_eq 31 _ (by norm_num) (lui_imm_lt _)
  have hl := lui_imm_lt (hookp_lower a)
  have hl' := lui_imm_lt (hookp_upper a)
  have fd : immU (patch_payload a).regd = lui_imm (hookp_lower a) := by
    rw [hd]; unfold immU; omega
  have fu : immU (patch_payload a).rega = lui_imm (hookp_upper a) := by
    rw [hu]; unfold immU; omega
  rw [fd, fu, lui_imm_eq, lui_imm_eq, hookp_upper_eq]
  unfold hookp_lower
  simp only [Nat.and_one_is_mod, Nat.shiftRight_eq_div_pow]
  constructor
  · intro h
    omega
  · intro h
    have h32 : a / 2 ^ 32 % 4294967296 = a / 2 ^ 32 := by omega
    have hc : a / 2147483648 % 2 < 2 := by omega
    rw [show (4294967296 : Nat) = 2 ^ 32 from rfl] at *
    rw [h32]
    exact bias_carry (a / 2 ^ 32) (a / 2147483648 % 2) (by omega) hc (by omega)

/-- Witness for `lui_field_bias`: both halves of `0x0000080000000800` have bit 11
set, and both upper-immediate fields are one more than the shifted half. -/
theorem lui_field_bias_witness :
    (0x0000080000000800 : Nat) < 2 ^ 64 ∧
      immU (patch_payload 0x0000080000000800).regd = 1 ∧
      immU (patch_payload 0x0000080000000800).rega = 1 :=
  ⟨by decide,
    ((lui_field_bias 0x0000080000000800 (by decide)).1 (by decide)).trans (by decide),
    ((lui_field_bias 0x0000080000000800 (by decide)).2 (by decide)).trans (by decide)⟩

/-- C5: with a non-NULL `orig_func_p`, `ucm_bistro_patch` returns
`UCS_ERR_UNSUPPORTED`, leaves the state as it was, and calls neither
`ucm_bistro_create_restore_point` nor `ucm_bistro_apply_patch_atomic`. -/
theorem patch_orig_func_unsupported {σ : Type} (env : BistroEnv σ) (func_ptr hook : Nat)
    (symbol : String) (p : Nat) (rp : Option Nat) (s : σ) :
    (ucm_bistro_patch env func_ptr hook symbol (some p) rp s).status = env.UCS_ERR_UNSUPPORTED ∧
      (ucm_bistro_patch env func_ptr hook symbol (some p) rp s).state = s ∧
      (ucm_bistro_patch env func_ptr hook symbol (some p) rp s).calls = [] := by
  simp [ucm_bistro_patch]

/-- C6: with `orig_func_p == NULL`, the restore point is requested first, for
`func_ptr` and the payload size of 24 bytes. If that fails, its status and state are
the result and the apply step is not called; if it succeeds, the result is the status
and state of the apply step on the same `func_ptr`, the payload of the hook and the
same length, called after the restore point. -/
theorem patch_restore_point_first {σ : Type} (env : BistroEnv σ) (func_ptr hook : Nat)
    (symbol : String) (rp : Option Nat) (s : σ) :
    sizeof_patch = 24 ∧
    (env.UCS_STATUS_IS_ERR (env.ucm_bistro_create_restore_point func_ptr 24 rp s).1 = true →
      (ucm_bistro_patch env func_ptr hook symbol none rp s).status
          = (env.ucm_bistro_create_restore_point func_ptr 24 rp s).1 ∧
        (ucm_bistro_patch env func_ptr hook symbol none rp s).state
          = (env.ucm_bistro_create_restore_point func_ptr 24 rp s).2 ∧
        (ucm_bistro_patch env func_ptr hook symbol none rp s).calls
          = [.create_restore_point func_ptr 24 rp]) ∧
    (env.UCS_STATUS_IS_ERR (env.ucm_bistro_create_restore_point func_ptr 24 rp s).1 = false →
      (ucm_bistro_patch env func_ptr hook symbol none rp s).status
          = (env.ucm_bistro_apply_patch_atomic func_ptr (patch_payload (hook % 2 ^ 64)) 24
              (env.ucm_bistro_create_restore_point func_ptr 24 rp s).2).1 ∧
        (ucm_bistro_patch env func_ptr hook symbol none rp s).state
          = (env.ucm_bistro_apply_patch_atomic func_ptr (patch_payload (hook % 2 ^ 64)) 24
              (env.ucm_bistro_create_restore_point func_ptr 24 rp s).2).2 ∧
        (ucm_bistro_patch env func_ptr hook symbol none rp s).calls
          = [.create_restore_point func_ptr 24 rp,
             .apply_patch_atomic func_ptr (patch_payload (hook % 2 ^ 64)) 24]) := by
  refine ⟨rfl, ?_, ?_⟩ <;> intro h <;> simp [ucm_bistro_patch, sizeof_patch, h]

/-- Witness for `patch_restore_point_first`: in the sample environment a patch at the
null address fails with the restore point's status `-4` and the site keeps its words,
and a patch at `0x2000` returns the apply step's status `0`. -/
theorem patch_restore_point_first_witness :
    (ucm_bistro_patch sampleEnv 0 0x0000000123456788 "malloc" none none [1, 2, 3]).status = -4 ∧
      (ucm_bistro_patch sampleEnv 0 0x0000000123456788 "malloc" none none [1, 2, 3]).state
        = [1, 2, 3] ∧
      (ucm_bistro_patch sampleEnv 0x2000 0x0000000123456788 "malloc" none none [1, 2, 3]).status
        = 0 :=
  ⟨((patch_restore_point_first sampleEnv 0 0x0000000123456788 "malloc" none [1, 2, 3]).2.1
      (by decide)).1,
    ((patch_restore_point_first sampleEnv 0 0x0000000123456788 "malloc" none [1, 2, 3]).2.1
      (by decide)).2.1,
    ((patch_restore_point_first sampleEnv 0x2000 0x0000000123456788 "malloc" none
      [1, 2, 3]).2.2 (by decide)).1⟩

/-- C7: the lock word is `C_J(0) = 0xA001`, it is the word `ucm_bistro_patch_lock`
hands to `ucm_bistro_modify_code`, and it decodes as `c.j` with offset 0; on every
machine whose program counter points at it, one step, and hence any number of
steps, leaves the program counter, the registers and memory as they were. -/
theorem lock_word_spins (m : Machine) (hpc : m.pc < 2 ^ 64)
    (hf : fetch16 m m.pc = 0xA001) :
    C_J 0 = 0xA001 ∧
      (∀ (σ : Type) (modify_code : Nat → Nat → σ → σ) (dst : Nat) (s : σ),
        ucm_bistro_patch_lock modify_code dst s = modify_code dst 0xA001 s) ∧
      decodeC 0xA001 = some (.c_j 0) ∧
      step m = some m ∧ ∀ n, run n m = some m := by
  have hs : step m = some m := step_self_jmp m hpc hf
  refine ⟨by decide, fun _ _ _ _ => rfl, by decide, hs, ?_⟩
  intro n
  induction n with
  | zero => rfl
  | succ k ih => rw [run, hs]; exact ih

/-- Witness for `lock_word_spins`: the machine `lockedMachine` stays put after a
thousand steps. -/
theorem lock_word_spins_witness :
    lockedMachine.pc < 2 ^ 64 ∧ fetch16 lockedMachine lockedMachine.pc = 0xA001 ∧
      run 1000 lockedMachine = some lockedMachine :=
  ⟨by decide, by decide,
    (lock_word_spins lockedMachine (by decide) (by decide)).2.2.2.2 1000⟩

/-- C8: for every hook address the payload is six words, each below `2 ^ 32`, that
decode in order as `LUI x31`, `ADDI x31, x31`, `SLLI x31, x31, 32`, `LUI x30`, `ADD`
and `JALR`, with fixed register fields and the immediates the encoder computed (each
within its field's width). -/
theorem payload_shape (a : Nat) :
    (patch_payload a).words.length = 6 ∧
      (∀ w ∈ (patch_payload a).words, w < 2 ^ 32) ∧
      (patch_payload a).words.map decode =
        [some (.lui 31 (lui_imm (hookp_upper a))),
         some (.addi 31 31 (hookp_upper a &&& 0xFFF)),
         some (.slli 31 31 32),
         some (.lui 30 (lui_imm (hookp_lower a))),
         some (.add 30 31 31),
         some (.jalr 0 31 (hookp_lower a &&& 0xFFF))] ∧
      lui_imm (hookp_upper a) < 2 ^ 20 ∧ hookp_upper a &&& 0xFFF < 2 ^ 12 ∧
      lui_imm (hookp_lower a) < 2 ^ 20 ∧ hookp_lower a &&& 0xFFF < 2 ^ 12 := by
  refine ⟨rfl, ?_, ?_, lui_imm_lt _, low12_lt _, lui_imm_lt _, low12_lt _⟩
  · intro w hw
    simp only [ucm_bistro_patch_t.words, List.mem_cons, List.mem_singleton,
      List.not_mem_nil, or_false] at hw
    have hlt : ∀ x : Nat, x % 2 ^ 32 < 2 ^ 32 := fun x => Nat.mod_lt _ (by norm_num)
    rcases hw with h | h | h | h | h | h <;> rw [h] <;> exact hlt _
  · simp only [ucm_bistro_patch_t.words, List.map, decode_rega, decode_regb, decode_regc,
      decode_regd, decode_rege, decode_regf]

/-- C9: for every hook address the fifth payload word is `add x30, x31, x31`: the
destination field holds 30, not 31, and both source fields hold 31. -/
theorem rege_is_add_x30_x31_x31 (a : Nat) :
    decode (patch_payload a).rege = some (.add 30 31 31) ∧
      rdField (patch_payload a).rege = 30 ∧ rdField (patch_payload a).rege ≠ X31 ∧
      rs1Field (patch_payload a).rege = 31 ∧ rs2Field (patch_payload a).rege = 31 := by
  show decode (ADD X31 X31 X30) = _ ∧ rdField (ADD X31 X31 X30) = _ ∧
    rdField (ADD X31 X31 X30) ≠ _ ∧ rs1Field (ADD X31 X31 X30) = _ ∧
    rs2Field (ADD X31 X31 X30) = _
  decide

/-- C10: for every hook address the sixth payload word is a `JALR` whose base
register field is `x31` and whose link register field is `x0`. -/
theorem regf_is_jalr_x0_x31 (a : Nat) :
    decode (patch_payload a).regf = some (.jalr X0 X31 (hookp_lower a &&& 0xFFF)) ∧
      opcode (patch_payload a).regf = 0x67 ∧ funct3 (patch_payload a).regf = 0 ∧
      rs1Field (patch_payload a).regf = X31 ∧ rdField (patch_payload a).regf = X0 := by
  have hw : (patch_payload a).regf
      = (hookp_lower a &&& 0xFFF) * 1048576 + 31 * 32768 + 0 * 4096 + 0 * 128 + 0x67 :=
    itype_eq _ 31 0 0 0x67 (by norm_num) (by norm_num) (by norm_num) (by norm_num) (low12_lt _)
  have hi := low12_lt (hookp_lower a)
  refine ⟨decode_regf a, ?_, ?_, ?_, ?_⟩ <;> rw [hw] <;>
    simp only [opcode, funct3, rs1Field, rdField, X31, X0] <;> omega

/-- C11: `ucs_ffs32` and `ucs_ffs64` are find-first-set. For a nonzero `n` below
`2 ^ 32` the 32-bit scan returns an `r < 32` with bit `r` of `n` set and every lower
bit clear; for a nonzero `n` below `2 ^ 64` the 64-bit scan returns an `r < 64` with
the same property. -/
theorem ffs_finds_first_set (n : Nat) (hn : n ≠ 0) :
    (n < 2 ^ 32 → ∃ r, ucs_ffs32 n = some r ∧ r < 32 ∧ n.testBit r = true ∧
        ∀ i, i < r → n.testBit i = false) ∧
      (n < 2 ^ 64 → ∃ r, ucs_ffs64 n = some r ∧ r < 64 ∧ n.testBit r = true ∧
        ∀ i, i < r → n.testBit i = false) :=
  ⟨fun h => ffs32_spec n hn h, fun h => ffs64_spec n hn h⟩

/-- Witness for `ffs_finds_first_set`: the lowest set bit of `80` is bit 4, and that
of `3 * 2 ^ 40`, whose low word is zero, is bit 40. -/
theorem ffs_finds_first_set_witness :
    (80 : Nat) ≠ 0 ∧ (80 : Nat) < 2 ^ 32 ∧ (3 * 2 ^ 40 : Nat) ≠ 0 ∧ (3 * 2 ^ 40 : Nat) < 2 ^ 64 ∧
      (∃ r, ucs_ffs32 80 = some r ∧ r < 32 ∧ Nat.testBit 80 r = true ∧
        ∀ i, i < r → Nat.testBit 80 i = false) ∧
      (∃ r, ucs_ffs64 (3 * 2 ^ 40) = some r ∧ r < 64 ∧ Nat.testBit (3 * 2 ^ 40) r = true ∧
        ∀ i, i < r → Nat.testBit (3 * 2 ^ 40) i = false) ∧
      ucs_ffs32 80 = some 4 ∧ ucs_ffs64 (3 * 2 ^ 40) = some 40 :=
  ⟨by decide, by decide, by decide, by decide,
    (ffs_finds_first_set 80 (by decide)).1 (by decide),
    (ffs_finds_first_set (3 * 2 ^ 40) (by decide)).2 (by decide),
    by decide, by decide⟩

/-- C13: at the hook address `0x000000007FFFF800` the compensation is not exact: the
upper half shifted by 32, the sign-extended `LUI` value of the lower half and the
sign-extended jump immediate sum to `0xFFFFFFFF7FFFF800` modulo `2 ^ 64`, which is
`2 ^ 32` short of the address. -/
theorem compensation_misses_0x7FFFF800 :
    ((hookp_upper 0x000000007FFFF800 <<< 32)
        + sext32 (((((hookp_lower 0x000000007FFFF800 >>> 12)
            + ((hookp_lower 0x000000007FFFF800 >>> 11) &&& 1)) &&& 0xFFFFF)) <<< 12)
        + sext12 (hookp_lower 0x000000007FFFF800 &&& 0xFFF)) % 2 ^ 64 = 0xFFFFFFFF7FFFF800 ∧
      lui_imm (hookp_lower 0x000000007FFFF800) = 0x80000 ∧
      hookp_upper 0x000000007FFFF800 = 0 ∧
      (0xFFFFFFFF7FFFF800 : Nat) ≠ 0x000000007FFFF800 := by
  decide

/-- C14: for every hook address and initial state the first three payload words run
to completion and leave `x31` holding `hookp_upper * 2 ^ 32`, where `hookp_upper` is
`((a >> 32) + ((a >> 31) & 1)) mod 2 ^ 32`; the low 32 bits of `x31` are zero. -/
theorem upper_half_in_x31 (a : Nat) (m : Machine) :
    ∃ m3, execWords ((patch_payload a).words.take 3) m = some m3 ∧
      m3.readReg 31 = (hookp_upper a % 2 ^ 32) * 2 ^ 32 % 2 ^ 64 ∧
      hookp_upper a = ((a >>> 32) + ((a >>> 31) &&& 1)) % 2 ^ 32 ∧
      m3.readReg 31 % 2 ^ 32 = 0 := by
  have hu : hookp_upper a < 2 ^ 32 := by rw [hookp_upper_eq]; omega
  have hb := upper_build (hookp_upper a) hu
  have hx : (exec (.slli 31 31 32) (exec (.addi 31 31 (hookp_upper a &&& 0xFFF))
      (exec (.lui 31 (lui_imm (hookp_upper a))) m))).readReg 31 = hookp_upper a * 2 ^ 32 := by
    simp only [exec, Machine.writeReg, Machine.readReg]
    simp
    simp at hb
    omega
  refine ⟨exec (.slli 31 31 32) (exec (.addi 31 31 (hookp_upper a &&& 0xFFF))
    (exec (.lui 31 (lui_imm (hookp_upper a))) m)), ?_, ?_, ?_, ?_⟩
  · show execWords [_, _, _] m = _
    rw [execWords_cons _ _ _ _ (decode_rega a), execWords_cons _ _ _ _ (decode_regb a),
      execWords_cons _ _ _ _ (decode_regc a)]
    rfl
  · rw [hx]; omega
  · rw [hookp_upper_eq]
    simp only [Nat.and_one_is_mod, Nat.shiftRight_eq_div_pow]
    omega
  · rw [hx]; omega

/-- C15: the encoder is injective on 64-bit hook addresses: if the six payload words
built for `a` equal those built for `b`, then `a = b`. -/
theorem payload_injective (a b : Nat) (ha : a < 2 ^ 64) (hb : b < 2 ^ 64)
    (h : (patch_payload a).words = (patch_payload b).words) : a = b := by
  unfold ucm_bistro_patch_t.words at h
  injection h with wa h
  injection h with wb h
  injection h with _ h
  injection h with wd h
  injection h with _ h
  injection h with wf h
  have e1 := Instr.lui.inj (Option.some.inj
    ((decode_rega a).symm.trans ((congrArg decode wa).trans (decode_rega b))))
  have e2 := Instr.addi.inj (Option.some.inj
    ((decode_regb a).symm.trans ((congrArg decode wb).trans (decode_regb b))))
  have e3 := Instr.lui.inj (Option.some.inj
    ((decode_regd a).symm.trans ((congrArg decode wd).trans (decode_regd b))))
  have e4 := Instr.jalr.inj (Option.some.inj
    ((decode_regf a).symm.trans ((congrArg decode wf).trans (decode_regf b))))
  have hua : hookp_upper a < 2 ^ 32 := by rw [hookp_upper_eq]; omega
  have hub : hookp_upper b < 2 ^ 32 := by rw [hookp_upper_eq]; omega
  have hla : hookp_lower a < 2 ^ 32 := by unfold hookp_lower; omega
  have hlb : hookp_lower b < 2 ^ 32 := by unfold hookp_lower; omega
  have hu := lui_imm_low12_inj _ _ hua hub e1.2 e2.2.2
  have hl := lui_imm_low12_inj _ _ hla hlb e3.2 e4.2.2
  rw [hookp_upper_eq, hookp_upper_eq] at hu
  unfold hookp_lower at hl
  omega

/-- Witness for `payload_injective`: the hypotheses hold at `a = b = 0x123456788`,
and the payloads of the distinct addresses `0x1000` and `0x2000` differ. -/
theorem payload_injective_witness :
    (0x0000000123456788 : Nat) < 2 ^ 64 ∧
      (patch_payload 0x0000000123456788).words = (patch_payload 0x0000000123456788).words ∧
      (0x0000000123456788 : Nat) = 0x0000000123456788 ∧
      (patch_payload 0x1000).words ≠ (patch_payload 0x2000).words :=
  ⟨by decide, rfl,
    payload_injective 0x0000000123456788 0x0000000123456788 (by decide) (by decide) rfl,
    fun h => absurd (payload_injective 0x1000 0x2000 (by decide) (by decide) h) (by decide)⟩

/-- C16: the scans are total with the word width as the value at zero:
`ucs_ffs32(0) = 32`, `ucs_ffs64(0) = 64`, every call returns a value (the builtin is
never asked for the trailing zeros of zero), a 32-bit input gives 32 exactly when it
is zero and a 64-bit input gives 64 exactly when it is zero. -/
theorem ffs_zero_sentinel (n : Nat) :
    ucs_ffs32 0 = some 32 ∧ ucs_ffs64 0 = some 64 ∧
      (∃ r, ucs_ffs32 n = some r ∧ r ≤ 32) ∧ (∃ r, ucs_ffs64 n = some r ∧ r ≤ 64) ∧
      (n < 2 ^ 32 → (ucs_ffs32 n = some 32 ↔ n = 0)) ∧
      (n < 2 ^ 64 → (ucs_ffs64 n = some 64 ↔ n = 0)) := by
  refine ⟨by decide, by decide, ffs32_total n, ffs64_total n, ?_, ?_⟩
  · intro h
    constructor
    · intro e
      by_contra hn
      obtain ⟨r, h1, h2, _⟩ := ffs32_spec n hn h
      rw [e] at h1
      have := Option.some.inj h1
      omega
    · intro e; rw [e]; decide
  · intro h
    constructor
    · intro e
      by_contra hn
      obtain ⟨r, h1, h2, _⟩ := ffs64_spec n hn h
      rw [e] at h1
      have := Option.some.inj h1
      omega
    · intro e; rw [e]; decide

/-- Witness for `ffs_zero_sentinel`: at the 32-bit, hence 64-bit, input `5` neither
scan returns the word width. -/
theorem ffs_zero_sentinel_witness :
    (5 : Nat) < 2 ^ 32 ∧ (5 : Nat) < 2 ^ 64 ∧
      (ucs_ffs32 5 = some 32 ↔ (5 : Nat) = 0) ∧ (ucs_ffs64 5 = some 64 ↔ (5 : Nat) = 0) ∧
      ucs_ffs32 5 = some 0 :=
  ⟨by decide, by decide, (ffs_zero_sentinel 5).2.2.2.2.1 (by decide),
    (ffs_zero_sentinel 5).2.2.2.2.2 (by decide), by decide⟩

/-- C17: `__ucs_ilog2_u32` and `__ucs_ilog2_u64` do not return the base-2 logarithm:
at `n = 3` both return `0` although `2 ^ 1 ≤ 3 < 2 ^ 2`, and at `n = 6` both return
`1` although `2 ^ 2 ≤ 6 < 2 ^ 3`; they return the number of trailing zero bits. -/
theorem ilog2_is_trailing_zeros :
    __ucs_ilog2_u32 3 = some 0 ∧ __ucs_ilog2_u64 3 = some 0 ∧
      ¬ (2 ^ 0 ≤ 3 ∧ 3 < 2 ^ (0 + 1)) ∧
      __ucs_ilog2_u32 6 = some 1 ∧ __ucs_ilog2_u64 6 = some 1 ∧
      ¬ (2 ^ 1 ≤ 6 ∧ 6 < 2 ^ (1 + 1)) := by
  decide

/-- C18: on powers of two the readings coincide: for `k < 32` both
`__ucs_ilog2_u32(2 ^ k)` and `ucs_ffs32(2 ^ k)` are `k`, and for `k < 64` both
`__ucs_ilog2_u64(2 ^ k)` and `ucs_ffs64(2 ^ k)` are `k`. -/
theorem ilog2_ffs_pow2 (k : Nat) :
    (k < 32 → __ucs_ilog2_u32 (2 ^ k) = some k ∧ ucs_ffs32 (2 ^ k) = some k) ∧
      (k < 64 → __ucs_ilog2_u64 (2 ^ k) = some k ∧ ucs_ffs64 (2 ^ k) = some k) := by
  have hpos : 2 ^ k ≠ 0 := by positivity
  constructor
  · intro hk
    have hlt : 2 ^ k < 2 ^ 32 := Nat.pow_lt_pow_right (by norm_num) hk
    obtain ⟨r, h1, _, h3, _⟩ := ffs32_spec (2 ^ k) hpos hlt
    rw [Nat.testBit_two_pow] at h3
    have hr : k = r := of_decide_eq_true h3
    subst hr
    exact ⟨h1, h1⟩
  · intro hk
    have hlt : 2 ^ k < 2 ^ 64 := Nat.pow_lt_pow_right (by norm_num) hk
    obtain ⟨r, h1, _, h3, _⟩ := ffs64_spec (2 ^ k) hpos hlt
    rw [Nat.testBit_two_pow] at h3
    have hr : k = r := of_decide_eq_true h3
    subst hr
    exact ⟨h1, h1⟩

/-- Witness for `ilog2_ffs_pow2`: the readings at `2 ^ 5` and at `2 ^ 40`. -/
theorem ilog2_ffs_pow2_witness :
    (5 : Nat) < 32 ∧ (40 : Nat) < 64 ∧
      __ucs_ilog2_u32 (2 ^ 5) = some 5 ∧ ucs_ffs32 (2 ^ 5) = some 5 ∧
      __ucs_ilog2_u64 (2 ^ 40) = some 40 ∧ ucs_ffs64 (2 ^ 40) = some 40 :=
  ⟨by decide, by decide, ((ilog2_ffs_pow2 5).1 (by decide)).1,
    ((ilog2_ffs_pow2 5).1 (by decide)).2, ((ilog2_ffs_pow2 40).2 (by decide)).1,
    ((ilog2_ffs_pow2 40).2 (by decide)).2⟩

end Bistro
